import Mathlib

/-!
Shallow embedding of `scraper.ts` from the City of Norwood, Payneham and
St Peters development-application scraper.

JS strings are modelled as `List Char`.  The HTML of the search-results
page is modelled as the list of sibling elements, in document order, that
the scraper's selectors can observe: headings `h4.non_table_headers`,
`div` detail blocks containing `p.rowDataOnly` key/value rows, and any
other element.
-/

namespace Scraper

/-- Code points matched by the JavaScript regexp class `\s` (and removed by
`String.prototype.trim`). -/
def wsCodes : List Nat :=
  [0x9, 0xa, 0xb, 0xc, 0xd, 0x20, 0xa0, 0x1680,
   0x2000, 0x2001, 0x2002, 0x2003, 0x2004, 0x2005, 0x2006, 0x2007,
   0x2008, 0x2009, 0x200a, 0x2028, 0x2029, 0x202f, 0x205f, 0x3000, 0xfeff]

/-- Whether a character is JavaScript whitespace. -/
def isWs (c : Char) : Bool := wsCodes.contains c.toNat

/-- JavaScript `String.prototype.trim`: drop leading and trailing
whitespace. -/
def jsTrim (l : List Char) : List Char := List.rdropWhile isWs (l.dropWhile isWs)

/-- JavaScript `.replace(/\s\s+/g, " ")` (line 85): each maximal run of two
or more whitespace characters is replaced by a single space; a lone
whitespace character is left unchanged. -/
def collapseRuns : List Char → List Char
  | [] => []
  | [c] => [c]
  | c :: d :: rest =>
    if isWs c && isWs d then
      ' ' :: collapseRuns (rest.dropWhile isWs)
    else
      c :: collapseRuns (d :: rest)
termination_by l => l.length
decreasing_by
  · simp only [List.length_cons]
    have h := (List.dropWhile_suffix (l := rest) isWs).length_le
    omega
  · simp [List.length_cons]

/-- Structurally recursive form of `collapseRuns`, so that concrete inputs
reduce inside the kernel: the flag records that the characters dropped so
far belong to a whitespace run of length at least two, whose last
character must be rendered as a single space. -/
def collapseRunsGo : Bool → List Char → List Char
  | _, [] => []
  | inRun, c :: rest =>
    if isWs c then
      match rest with
      | d :: _ =>
        if isWs d then collapseRunsGo true rest
        else (if inRun then ' ' else c) :: collapseRunsGo false rest
      | [] => [if inRun then ' ' else c]
    else c :: collapseRunsGo false rest

/-- Line 85: `$(headerElement).text().trim().replace(/\s\s+/g, " ")`. -/
def normalizeWhitespace (l : List Char) : List Char := collapseRunsGo false (jsTrim l)

/-- A calendar date as moment stores it after a successful parse. -/
structure CalDate where
  year : Nat
  month : Nat
  day : Nat
  deriving DecidableEq, Repr

/-- Gregorian leap-year rule, as used by moment's overflow check. -/
def isLeap (y : Nat) : Bool := y % 4 = 0 && (y % 100 ≠ 0 || y % 400 = 0)

/-- Number of days in a month, as used by moment's overflow check. -/
def daysInMonth (y m : Nat) : Nat :=
  if m = 2 then (if isLeap y then 29 else 28)
  else if m = 4 || m = 6 || m = 9 || m = 11 then 30
  else 31

def isDigit (c : Char) : Bool := 48 ≤ c.toNat && c.toNat ≤ 57

def digitVal (c : Char) : Nat := c.toNat - 48

/-- Moment's overflow check: the parsed numbers must form a real calendar
date, otherwise the moment is invalid. -/
def mkDate (d m y : Nat) : Option CalDate :=
  if 1 ≤ m && m ≤ 12 && 1 ≤ d && d ≤ daysInMonth y m then some ⟨y, m, d⟩ else none

/-- Line 99: `moment(value, "D/MM/YYYY", true)`.  In strict mode the token
`D` matches one or two digits, `MM` exactly two digits and `YYYY` exactly
four digits, the literal separators must match, and no input may be left
over; any mismatch yields the invalid moment, modelled as `none`. -/
def parseDMMYYYY (s : List Char) : Option CalDate :=
  match s with
  | [a, b, m1, m2, c, y1, y2, y3, y4] =>
    if isDigit a && b = '/' && isDigit m1 && isDigit m2 && c = '/' &&
        isDigit y1 && isDigit y2 && isDigit y3 && isDigit y4 then
      mkDate (digitVal a) (10 * digitVal m1 + digitVal m2)
        (1000 * digitVal y1 + 100 * digitVal y2 + 10 * digitVal y3 + digitVal y4)
    else none
  | [a1, a2, b, m1, m2, c, y1, y2, y3, y4] =>
    if isDigit a1 && isDigit a2 && b = '/' && isDigit m1 && isDigit m2 && c = '/' &&
        isDigit y1 && isDigit y2 && isDigit y3 && isDigit y4 then
      mkDate (10 * digitVal a1 + digitVal a2) (10 * digitVal m1 + digitVal m2)
        (1000 * digitVal y1 + 100 * digitVal y2 + 10 * digitVal y3 + digitVal y4)
    else none
  | _ => none

/-- Decimal digit character for a value below ten. -/
def digitChar (n : Nat) : Char := Char.ofNat (48 + n)

/-- Two-digit zero-padded rendering, as in moment's `MM` / `DD` output. -/
def pad2 (n : Nat) : List Char := [digitChar (n / 10 % 10), digitChar (n % 10)]

/-- Four-digit zero-padded rendering, as in moment's `YYYY` output. -/
def pad4 (n : Nat) : List Char :=
  [digitChar (n / 1000 % 10), digitChar (n / 100 % 10), digitChar (n / 10 % 10),
   digitChar (n % 10)]

/-- `format("YYYY-MM-DD")` on a valid moment. -/
def formatYMD (d : CalDate) : List Char :=
  pad4 d.year ++ '-' :: pad2 d.month ++ '-' :: pad2 d.day

/-- `format("YYYY-MM-DD")` on a moment value: an invalid moment renders as
the string `"Invalid date"`. -/
def momentFormatYMD : Option CalDate → List Char
  | some d => formatYMD d
  | none => "Invalid date".data

/-- Line 20: the fixed main-page URL, also stored as `informationUrl`. -/
def developmentApplicationMainUrl : List Char :=
  "https://ecouncil.npsp.sa.gov.au/eservice/daEnquiryInit.do?doc_typ=155&nodeNum=10209".data

/-- The mutable per-heading state of the parse loop (lines 86--88):
`applicationNumber` and `reason` start as `""`, `receivedDate` starts as
`moment.invalid()`, modelled as `none`. -/
structure ScanState where
  applicationNumber : List Char
  reason : List Char
  receivedDate : Option CalDate
  deriving DecidableEq, Repr

def initialScanState : ScanState :=
  { applicationNumber := [], reason := [], receivedDate := none }

/-- Lines 92--100: one `p.rowDataOnly` row.  The texts of the `span.key`
and `span.inputField` children are trimmed, then the key is compared
case-sensitively against the three known labels; any other key leaves the
state unchanged. -/
def applyRow (st : ScanState) (row : List Char × List Char) : ScanState :=
  if jsTrim row.1 = "Type of Work".data then { st with reason := jsTrim row.2 }
  else if jsTrim row.1 = "Application No.".data then
    { st with applicationNumber := jsTrim row.2 }
  else if jsTrim row.1 = "Date Lodged".data then
    { st with receivedDate := parseDMMYYYY (jsTrim row.2) }
  else st

/-- A sibling element of the search-results page as the scraper's
selectors see it: an `h4.non_table_headers` heading with its text, a `div`
detail block with the key/value texts of its `p.rowDataOnly` rows, or any
other element. -/
inductive Elem where
  | h4 (text : List Char)
  | div (rows : List (List Char × List Char))
  | other
  deriving DecidableEq, Repr

/-- Line 90: `$(headerElement).next("div")` selects the immediate next
sibling element and keeps it only when it is a `div`; the rows scanned for
a heading are exactly that element's rows, or none. -/
def nextDivRows : List Elem → List (List Char × List Char)
  | Elem.div rows :: _ => rows
  | _ => []

/-- Line 84: iterate over every `h4.non_table_headers` element, pairing
each heading's text with the rows of its `next("div")` block. -/
def headerBlocks : List Elem → List (List Char × List (List Char × List Char))
  | [] => []
  | Elem.h4 t :: rest => (t, nextDivRows rest) :: headerBlocks rest
  | _ :: rest => headerBlocks rest

/-- The record handed to `insertRow` (lines 106--113). -/
structure DevRec where
  applicationNumber : List Char
  address : List Char
  reason : List Char
  informationUrl : List Char
  receivedDate : List Char
  scrapeDate : List Char
  deriving DecidableEq, Repr

/-- Line 112 writes `receivedDate.isValid ? receivedDate.format("YYYY-MM-DD") : ""`.
The condition reads the method `isValid` without calling it; a function
object is always truthy in JavaScript, so the format branch is always
taken. -/
def receivedDateIsValidRefTruthy : Bool := true

/-- The `receivedDate` string stored by line 112. -/
def renderReceivedDate (m : Option CalDate) : List Char :=
  if receivedDateIsValidRefTruthy then momentFormatYMD m else []

/-- Lines 85--113: compose the candidate record for one heading from its
normalized heading text and the key/value rows of its detail block;
`today` is the run's current date. -/
def extractRecord (today : CalDate) (headerText : List Char)
    (rows : List (List Char × List Char)) : DevRec :=
  let st := rows.foldl applyRow initialScanState
  { applicationNumber := st.applicationNumber
    address := normalizeWhitespace headerText
    reason := st.reason
    informationUrl := developmentApplicationMainUrl
    receivedDate := renderReceivedDate st.receivedDate
    scrapeDate := formatYMD today }

/-- All candidate records of a page, one per heading, in document order. -/
def extractCandidates (today : CalDate) (page : List Elem) : List DevRec :=
  (headerBlocks page).map fun b => extractRecord today b.1 b.2

/-- Line 105: `applicationNumber !== "" && address !== ""`. -/
def acceptedForSink (r : DevRec) : Bool :=
  !r.applicationNumber.isEmpty && !r.address.isEmpty

/-- Lines 105--114: the records actually passed to `insertRow`, in order;
candidates failing the guard are silently dropped. -/
def sinkWrites (today : CalDate) (page : List Elem) : List DevRec :=
  (extractCandidates today page).filter acceptedForSink

/-- A cookie of the `request.jar()` cookie jar. -/
structure Cookie where
  name : List Char
  value : List Char
  deriving DecidableEq, Repr

/-- An HTTP GET as issued by `request(\x7b url, jar \x7d)`: the URL and the
cookies the jar attaches to the request. -/
structure HttpRequest where
  url : List Char
  cookiesSent : List Cookie
  deriving DecidableEq, Repr

/-- Storing one `Set-Cookie` into the jar replaces any cookie of the same
name. -/
def setCookieInJar (jar : List Cookie) (c : Cookie) : List Cookie :=
  jar.filter (fun k => k.name != c.name) ++ [c]

/-- Store a response's cookies into the jar in order. -/
def jarStore (jar : List Cookie) (cs : List Cookie) : List Cookie :=
  cs.foldl setCookieInJar jar

/-- Line 21 up to the `dateFrom` marker. -/
def searchUrlPart1 : List Char :=
  "https://ecouncil.npsp.sa.gov.au/eservice/daEnquiry.do?number=&lodgeRangeType=on&dateFrom=".data

/-- Line 21 between the `dateFrom` and `dateTo` markers. -/
def searchUrlPart2 : List Char := "&dateTo=".data

/-- Line 21 after the `dateTo` marker. -/
def searchUrlPart3 : List Char :=
  "&detDateFromString=&detDateToString=&streetName=&suburb=0&unitNum=&houseNum=0%0D%0A%09%09%09%09%09%09&planNumber=&strataPlan=&lotNumber=&propertyName=&searchMode=A&submitButton=Search".data

/-- Line 77: each of the two substitution markers occurs exactly once in
the search-URL template, so the two global `.replace` calls produce this
concatenation. -/
def searchUrlFor (dateFrom dateTo : List Char) : List Char :=
  searchUrlPart1 ++ dateFrom ++ searchUrlPart2 ++ dateTo ++ searchUrlPart3

/-- Lines 70--79: the sequence of HTTP GETs one run issues, in order.  The
jar is created empty (line 70); the main-page GET is awaited first (line
71) and its response's cookies are stored into the jar; only then is the
search GET issued with the same jar (line 79), so it carries the cookies
the main-page response set. -/
def sessionRequests (mainSetCookies : List Cookie) (dateFrom dateTo : List Char) :
    List HttpRequest :=
  let jar0 : List Cookie := []
  let jar1 := jarStore jar0 mainSetCookies
  [{ url := developmentApplicationMainUrl, cookiesSent := jar0 },
   { url := searchUrlFor dateFrom dateTo, cookiesSent := jar1 }]

/-- No two consecutive whitespace characters anywhere in the list. -/
def noDoubleWs : List Char → Bool
  | c :: d :: rest => !(isWs c && isWs d) && noDoubleWs (d :: rest)
  | _ => true

end Scraper

namespace Scraper

theorem collapseRuns_nil : collapseRuns [] = [] := by
  rw [collapseRuns]

theorem collapseRuns_single (c : Char) : collapseRuns [c] = [c] := by
  rw [collapseRuns]

theorem collapseRuns_cons2 (c d : Char) (rest : List Char) :
    collapseRuns (c :: d :: rest) =
      if isWs c && isWs d then ' ' :: collapseRuns (rest.dropWhile isWs)
      else c :: collapseRuns (d :: rest) := by
  rw [collapseRuns]

theorem collapseRuns_cons_of_not_ws (c : Char) (l : List Char) (h : isWs c = false) :
    collapseRuns (c :: l) = c :: collapseRuns l := by
  cases l with
  | nil => rw [collapseRuns_single, collapseRuns_nil]
  | cons d rest => rw [collapseRuns_cons2]; simp [h]

theorem collapseRunsGo_true_run :
    ∀ (l : List Char) (d : Char), isWs d = true →
      collapseRunsGo true (d :: l) = ' ' :: collapseRunsGo false (l.dropWhile isWs) := by
  intro l
  induction l with
  | nil => intro d hd; simp [collapseRunsGo, hd]
  | cons e l2 ih =>
    intro d hd
    cases he : isWs e with
    | true =>
      have h1 : collapseRunsGo true (d :: e :: l2) = collapseRunsGo true (e :: l2) := by
        simp [collapseRunsGo, hd, he]
      rw [h1, ih e he]
      simp [he]
    | false => simp [collapseRunsGo, hd, he, List.dropWhile_cons]

theorem collapseRunsGo_false_eq : ∀ l : List Char, collapseRunsGo false l = collapseRuns l := by
  intro l
  induction l using collapseRuns.induct with
  | case1 => rw [collapseRuns_nil]; rfl
  | case2 c =>
    rw [collapseRuns_single]
    cases hc : isWs c <;> simp [collapseRunsGo, hc]
  | case3 c d rest hcd ih =>
    have hc : isWs c = true := ((Bool.and_eq_true _ _).mp hcd).1
    have hd : isWs d = true := ((Bool.and_eq_true _ _).mp hcd).2
    have h1 : collapseRunsGo false (c :: d :: rest) = collapseRunsGo true (d :: rest) := by
      simp [collapseRunsGo, hc, hd]
    rw [collapseRuns_cons2, if_pos hcd, h1, collapseRunsGo_true_run rest d hd, ih]
  | case4 c d rest hcd ih =>
    rw [collapseRuns_cons2, if_neg hcd]
    cases hc : isWs c with
    | true =>
      have hd : isWs d = false := by
        cases hdd : isWs d
        · rfl
        · exact absurd (by rw [hc, hdd]; rfl : (isWs c && isWs d) = true) hcd
      have h1 : collapseRunsGo false (c :: d :: rest) = c :: collapseRunsGo false (d :: rest) := by
        simp [collapseRunsGo, hc, hd]
      rw [h1, ih]
    | false =>
      have h1 : collapseRunsGo false (c :: d :: rest) = c :: collapseRunsGo false (d :: rest) := by
        simp [collapseRunsGo, hc]
      rw [h1, ih]

theorem normalizeWhitespace_eq (l : List Char) :
    normalizeWhitespace l = collapseRuns (jsTrim l) := by
  rw [normalizeWhitespace, collapseRunsGo_false_eq]

theorem collapseRuns_ne_nil (l : List Char) (h : l ≠ []) : collapseRuns l ≠ [] := by
  cases l with
  | nil => exact absurd rfl h
  | cons c t =>
    cases t with
    | nil => rw [collapseRuns_single]; simp
    | cons d rest =>
      rw [collapseRuns_cons2]
      split <;> simp

theorem collapseRuns_head_ws (l : List Char) (c : Char)
    (hc : (collapseRuns l).head? = some c) (hws : isWs c = true) :
    ∃ d, l.head? = some d ∧ isWs d = true := by
  cases l with
  | nil => rw [collapseRuns_nil] at hc; cases hc
  | cons a t =>
    cases t with
    | nil =>
      rw [collapseRuns_single] at hc
      exact ⟨a, rfl, by cases hc; exact hws⟩
    | cons b rest =>
      rw [collapseRuns_cons2] at hc
      by_cases h : (isWs a && isWs b) = true
      · exact ⟨a, rfl, (Bool.and_eq_true _ _).mp h |>.1⟩
      · rw [if_neg h, List.head?_cons] at hc
        have ha : a = c := Option.some.inj hc
        exact ⟨a, rfl, by rw [ha]; exact hws⟩

theorem head_dropWhile_all (p : Char → Bool) (l : List Char) :
    ((l.dropWhile p).head?.all fun c => !p c) = true := by
  induction l with
  | nil => rfl
  | cons c rest ih =>
    rw [List.dropWhile_cons]
    by_cases h : p c = true
    · simpa [h] using ih
    · simp [h]

theorem getLast_dropWhile_all (p : Char → Bool) (l : List Char)
    (h : (l.getLast?.all fun c => !p c) = true) :
    ((l.dropWhile p).getLast?.all fun c => !p c) = true := by
  induction l with
  | nil => rfl
  | cons c rest ih =>
    rw [List.dropWhile_cons]
    by_cases hc : p c = true
    · rw [if_pos hc]
      cases rest with
      | nil => simp [hc] at h
      | cons r rs => exact ih (by rwa [List.getLast?_cons_cons] at h)
    · rwa [if_neg hc]

theorem noDoubleWs_collapseRuns (l : List Char) : noDoubleWs (collapseRuns l) = true := by
  induction l using collapseRuns.induct with
  | case1 => rw [collapseRuns_nil]; rfl
  | case2 c => rw [collapseRuns_single]; rfl
  | case3 c d rest hcd ih =>
    rw [collapseRuns_cons2, if_pos hcd]
    cases hY : collapseRuns (rest.dropWhile isWs) with
    | nil => rfl
    | cons y ys =>
      have hy : isWs y = false := by
        cases hws : isWs y
        · rfl
        · obtain ⟨d', hd', hwd'⟩ :=
            collapseRuns_head_ws (rest.dropWhile isWs) y (by rw [hY]; rfl) hws
          have hall := head_dropWhile_all isWs rest
          rw [hd'] at hall
          simp [hwd'] at hall
      rw [hY] at ih
      simpa [noDoubleWs, hy] using ih
  | case4 c d rest hcd ih =>
    rw [collapseRuns_cons2, if_neg hcd]
    cases hZ : collapseRuns (d :: rest) with
    | nil => rfl
    | cons z zs =>
      have hcz : (isWs c && isWs z) = false := by
        cases hc : isWs c
        · rfl
        · cases hz : isWs z
          · rfl
          · obtain ⟨d', hd', hwd'⟩ :=
              collapseRuns_head_ws (d :: rest) z (by rw [hZ]; rfl) hz
            rw [List.head?_cons] at hd'
            have hdd : d = d' := Option.some.inj hd'
            exact absurd (by rw [hc, hdd, hwd']; rfl : (isWs c && isWs d) = true) hcd
      rw [hZ] at ih
      simpa [noDoubleWs, hcz] using ih

theorem collapseRuns_eq_self : ∀ l : List Char, noDoubleWs l = true → collapseRuns l = l := by
  intro l
  induction l using collapseRuns.induct with
  | case1 => intro _; exact collapseRuns_nil
  | case2 c => intro _; exact collapseRuns_single c
  | case3 c d rest hcd ih =>
    intro h
    simp [noDoubleWs, hcd] at h
  | case4 c d rest hcd ih =>
    intro h
    have h2 : noDoubleWs (d :: rest) = true := by
      simp only [noDoubleWs, Bool.and_eq_true] at h
      exact h.2
    rw [collapseRuns_cons2, if_neg hcd, ih h2]

theorem head_all_collapseRuns (l : List Char)
    (h : (l.head?.all fun c => !isWs c) = true) :
    ((collapseRuns l).head?.all fun c => !isWs c) = true := by
  cases l with
  | nil => rw [collapseRuns_nil]; rfl
  | cons c rest =>
    rw [List.head?_cons] at h
    have hc : isWs c = false := by simpa using h
    rw [collapseRuns_cons_of_not_ws c rest hc, List.head?_cons]
    simpa using hc

theorem getLast_all_collapseRuns : ∀ l : List Char,
    (l.getLast?.all fun c => !isWs c) = true →
    ((collapseRuns l).getLast?.all fun c => !isWs c) = true := by
  intro l
  induction l using collapseRuns.induct with
  | case1 => intro _; rw [collapseRuns_nil]; rfl
  | case2 c => intro h; rw [collapseRuns_single]; exact h
  | case3 c d rest hcd ih =>
    intro h
    rw [collapseRuns_cons2, if_pos hcd]
    cases rest with
    | nil =>
      rw [List.getLast?_cons_cons] at h
      have hd : isWs d = true := ((Bool.and_eq_true _ _).mp hcd).2
      simp [hd] at h
    | cons r rs =>
      have hrest : ((r :: rs).getLast?.all fun c => !isWs c) = true := by
        rwa [List.getLast?_cons_cons, List.getLast?_cons_cons] at h
      have hdrop := getLast_dropWhile_all isWs (r :: rs) hrest
      have hY := ih hdrop
      have hne : (r :: rs).dropWhile isWs ≠ [] := by
        intro hnil
        rw [List.dropWhile_eq_nil_iff] at hnil
        have hlast := List.getLast?_eq_getLast_of_ne_nil (l := r :: rs) (by simp)
        have hmem := List.getLast_mem (l := r :: rs) (by simp)
        have hws := hnil _ hmem
        rw [hlast] at hrest
        simp [hws] at hrest
      have hYne := collapseRuns_ne_nil _ hne
      obtain ⟨y, ys, hyy⟩ := List.exists_cons_of_ne_nil hYne
      rw [hyy, List.getLast?_cons_cons]
      rw [hyy] at hY
      exact hY
  | case4 c d rest hcd ih =>
    intro h
    rw [collapseRuns_cons2, if_neg hcd]
    have hrest : ((d :: rest).getLast?.all fun c => !isWs c) = true := by
      rwa [List.getLast?_cons_cons] at h
    have hZ := ih hrest
    have hZne := collapseRuns_ne_nil (d :: rest) (by simp)
    obtain ⟨z, zs, hzz⟩ := List.exists_cons_of_ne_nil hZne
    rw [hzz, List.getLast?_cons_cons]
    rw [hzz] at hZ
    exact hZ

theorem jsTrim_head_all (l : List Char) :
    ((jsTrim l).head?.all fun c => !isWs c) = true := by
  unfold jsTrim
  obtain ⟨t, ht⟩ := List.rdropWhile_prefix isWs (l.dropWhile isWs)
  cases hr : List.rdropWhile isWs (l.dropWhile isWs) with
  | nil => rfl
  | cons a u =>
    rw [hr] at ht
    have hha : (l.dropWhile isWs).head? = some a := by rw [← ht]; rfl
    have hall := head_dropWhile_all isWs l
    rw [hha] at hall
    rw [List.head?_cons]
    exact hall

theorem jsTrim_getLast_all (l : List Char) :
    ((jsTrim l).getLast?.all fun c => !isWs c) = true := by
  unfold jsTrim
  cases hr : List.rdropWhile isWs (l.dropWhile isWs) with
  | nil => rfl
  | cons a u =>
    have hne : List.rdropWhile isWs (l.dropWhile isWs) ≠ [] := by rw [hr]; simp
    have hlast := List.rdropWhile_last_not isWs (l.dropWhile isWs) hne
    rw [← hr, List.getLast?_eq_getLast_of_ne_nil hne]
    simpa using hlast

theorem jsTrim_eq_self (l : List Char)
    (h1 : (l.head?.all fun c => !isWs c) = true)
    (h2 : (l.getLast?.all fun c => !isWs c) = true) :
    jsTrim l = l := by
  unfold jsTrim
  have hd : l.dropWhile isWs = l := by
    rw [List.dropWhile_eq_self_iff]
    intro hl
    cases l with
    | nil => simp at hl
    | cons c rest =>
      rw [List.head?_cons] at h1
      simp only [Option.all_some] at h1
      simpa [List.get] using h1
  rw [hd, List.rdropWhile_eq_self_iff]
  intro hl
  rw [List.getLast?_eq_getLast_of_ne_nil hl] at h2
  simpa using h2

theorem normalize_head_all (l : List Char) :
    ((normalizeWhitespace l).head?.all fun c => !isWs c) = true := by
  rw [normalizeWhitespace_eq]
  exact head_all_collapseRuns _ (jsTrim_head_all l)

theorem normalize_getLast_all (l : List Char) :
    ((normalizeWhitespace l).getLast?.all fun c => !isWs c) = true := by
  rw [normalizeWhitespace_eq]
  exact getLast_all_collapseRuns _ (jsTrim_getLast_all l)

theorem normalize_noDoubleWs (l : List Char) :
    noDoubleWs (normalizeWhitespace l) = true := by
  rw [normalizeWhitespace_eq]
  exact noDoubleWs_collapseRuns _

theorem normalize_idem (l : List Char) :
    normalizeWhitespace (normalizeWhitespace l) = normalizeWhitespace l := by
  rw [normalizeWhitespace_eq (normalizeWhitespace l),
    jsTrim_eq_self _ (normalize_head_all l) (normalize_getLast_all l)]
  exact collapseRuns_eq_self _ (normalize_noDoubleWs l)

theorem applyRow_reason_of_label (st : ScanState) (row : List Char × List Char)
    (h : jsTrim row.1 = "Type of Work".data) :
    (applyRow st row).reason = jsTrim row.2 := by
  unfold applyRow
  rw [if_pos h]

theorem applyRow_reason_of_not (st : ScanState) (row : List Char × List Char)
    (h : jsTrim row.1 ≠ "Type of Work".data) :
    (applyRow st row).reason = st.reason := by
  unfold applyRow
  split_ifs with h1 h2 h3 <;> first | rfl | exact absurd h1 h

theorem applyRow_appNo_of_label (st : ScanState) (row : List Char × List Char)
    (h : jsTrim row.1 = "Application No.".data) :
    (applyRow st row).applicationNumber = jsTrim row.2 := by
  unfold applyRow
  rw [if_neg (fun h1 => by exact absurd (h.symm.trans h1) (by decide)), if_pos h]

theorem applyRow_appNo_of_not (st : ScanState) (row : List Char × List Char)
    (h : jsTrim row.1 ≠ "Application No.".data) :
    (applyRow st row).applicationNumber = st.applicationNumber := by
  unfold applyRow
  split_ifs <;> rfl

theorem applyRow_date_of_label (st : ScanState) (row : List Char × List Char)
    (h : jsTrim row.1 = "Date Lodged".data) :
    (applyRow st row).receivedDate = parseDMMYYYY (jsTrim row.2) := by
  unfold applyRow
  rw [if_neg (fun h1 => by exact absurd (h.symm.trans h1) (by decide)),
    if_neg (fun h2 => by exact absurd (h.symm.trans h2) (by decide)), if_pos h]

theorem applyRow_date_of_not (st : ScanState) (row : List Char × List Char)
    (h : jsTrim row.1 ≠ "Date Lodged".data) :
    (applyRow st row).receivedDate = st.receivedDate := by
  unfold applyRow
  split_ifs <;> rfl

/-- The trimmed value of the last row, in document order, whose trimmed key
equals `label`; `none` when no row matches. -/
def lastValueFor (label : List Char) : List (List Char × List Char) → Option (List Char)
  | [] => none
  | row :: rs =>
    match lastValueFor label rs with
    | some v => some v
    | none => if jsTrim row.1 = label then some (jsTrim row.2) else none

theorem foldl_reason : ∀ (rows : List (List Char × List Char)) (st : ScanState),
    (rows.foldl applyRow st).reason =
      (lastValueFor "Type of Work".data rows).getD st.reason := by
  intro rows
  induction rows with
  | nil => intro st; rfl
  | cons row rs ih =>
    intro st
    rw [List.foldl_cons, ih (applyRow st row)]
    show (lastValueFor "Type of Work".data rs).getD (applyRow st row).reason =
      (lastValueFor "Type of Work".data (row :: rs)).getD st.reason
    rw [lastValueFor]
    cases hv : lastValueFor "Type of Work".data rs with
    | some v => rfl
    | none =>
      by_cases h : jsTrim row.1 = "Type of Work".data
      · rw [if_pos h]
        exact applyRow_reason_of_label st row h
      · rw [if_neg h]
        exact applyRow_reason_of_not st row h

theorem foldl_appNo : ∀ (rows : List (List Char × List Char)) (st : ScanState),
    (rows.foldl applyRow st).applicationNumber =
      (lastValueFor "Application No.".data rows).getD st.applicationNumber := by
  intro rows
  induction rows with
  | nil => intro st; rfl
  | cons row rs ih =>
    intro st
    rw [List.foldl_cons, ih (applyRow st row)]
    show (lastValueFor "Application No.".data rs).getD (applyRow st row).applicationNumber =
      (lastValueFor "Application No.".data (row :: rs)).getD st.applicationNumber
    rw [lastValueFor]
    cases hv : lastValueFor "Application No.".data rs with
    | some v => rfl
    | none =>
      by_cases h : jsTrim row.1 = "Application No.".data
      · rw [if_pos h]
        exact applyRow_appNo_of_label st row h
      · rw [if_neg h]
        exact applyRow_appNo_of_not st row h

theorem foldl_receivedDate : ∀ (rows : List (List Char × List Char)) (st : ScanState),
    (rows.foldl applyRow st).receivedDate =
      ((lastValueFor "Date Lodged".data rows).map parseDMMYYYY).getD st.receivedDate := by
  intro rows
  induction rows with
  | nil => intro st; rfl
  | cons row rs ih =>
    intro st
    rw [List.foldl_cons, ih (applyRow st row)]
    show ((lastValueFor "Date Lodged".data rs).map parseDMMYYYY).getD
        (applyRow st row).receivedDate =
      ((lastValueFor "Date Lodged".data (row :: rs)).map parseDMMYYYY).getD st.receivedDate
    rw [lastValueFor]
    cases hv : lastValueFor "Date Lodged".data rs with
    | some v => rfl
    | none =>
      by_cases h : jsTrim row.1 = "Date Lodged".data
      · rw [if_pos h]
        exact applyRow_date_of_label st row h
      · rw [if_neg h]
        exact applyRow_date_of_not st row h

theorem jarStore_preserves_name : ∀ (cs jar : List Cookie) (n : List Char),
    (∃ k, k ∈ jar ∧ k.name = n) → ∃ k2, k2 ∈ jarStore jar cs ∧ k2.name = n := by
  intro cs
  induction cs with
  | nil => intro jar n h; exact h
  | cons c cs' ih =>
    intro jar n h
    show ∃ k2, k2 ∈ jarStore (setCookieInJar jar c) cs' ∧ k2.name = n
    apply ih
    obtain ⟨k, hk, hkn⟩ := h
    by_cases hn : k.name = c.name
    · exact ⟨c, by simp [setCookieInJar], by rw [← hn, hkn]⟩
    · refine ⟨k, ?_, hkn⟩
      rw [setCookieInJar]
      apply List.mem_append_left
      rw [List.mem_filter]
      exact ⟨hk, by simpa using hn⟩

theorem jarStore_mem_name : ∀ (cs jar : List Cookie) (c : Cookie), c ∈ cs →
    ∃ k2, k2 ∈ jarStore jar cs ∧ k2.name = c.name := by
  intro cs
  induction cs with
  | nil => intro jar c h; cases h
  | cons c0 cs' ih =>
    intro jar c h
    show ∃ k2, k2 ∈ jarStore (setCookieInJar jar c0) cs' ∧ k2.name = c.name
    rcases List.mem_cons.mp h with rfl | h'
    · exact jarStore_preserves_name cs' _ _ ⟨c, by simp [setCookieInJar], rfl⟩
    · exact ih _ c h'

/-- A detail block with no `Date Lodged` row. -/
def c1PageMissing : List Elem :=
  [Elem.h4 "10 Smith St".data,
   Elem.div [("Application No.".data, "042/2023".data)]]

/-- A detail block whose `Date Lodged` value does not parse. -/
def c1PageUnparseable : List Elem :=
  [Elem.h4 "11 Smith St".data,
   Elem.div [("Application No.".data, "043/2023".data),
             ("Date Lodged".data, "not a date".data)]]

/-- C1: refuted by the code.  When the `Date Lodged` row is missing, or its
value fails the strict parse, the record forwarded to the sink stores
`receivedDate = "Invalid date"`, not the empty string: line 112 tests
`receivedDate.isValid`, a method reference that is always truthy, so the
invalid moment is formatted instead of being replaced by `""`. -/
theorem c1_invalid_date_is_not_empty :
    (sinkWrites ⟨2023, 8, 5⟩ c1PageMissing).map (fun r => r.receivedDate) =
      ["Invalid date".data] ∧
    (sinkWrites ⟨2023, 8, 5⟩ c1PageUnparseable).map (fun r => r.receivedDate) =
      ["Invalid date".data] ∧
    "Invalid date".data ≠ ([] : List Char) := by
  refine ⟨?_, ?_, ?_⟩ <;> decide

/-- C2: a candidate record is forwarded to the sink if and only if both its
`applicationNumber` and its `address` are non-empty (line 105); all other
candidates cause no sink write, while `reason` and `receivedDate` are not
consulted by the guard. -/
theorem c2_forward_iff_nonempty :
    ∀ (today : CalDate) (page : List Elem) (r : DevRec),
      r ∈ sinkWrites today page ↔
        r ∈ extractCandidates today page ∧
          r.applicationNumber ≠ [] ∧ r.address ≠ [] := by
  intro today page r
  rw [sinkWrites, List.mem_filter, acceptedForSink]
  simp [List.isEmpty_iff, and_assoc]

/-- Witness for C2 at a concrete page: the record with non-empty
application number and address is forwarded. -/
theorem c2_forward_iff_nonempty_witness :
    { applicationNumber := "1/2023".data, address := "8 George St".data,
      reason := ([] : List Char), informationUrl := developmentApplicationMainUrl,
      receivedDate := "Invalid date".data, scrapeDate := "2023-08-05".data : DevRec } ∈
      sinkWrites ⟨2023, 8, 5⟩
        [Elem.h4 "8 George St".data,
         Elem.div [("Application No.".data, "1/2023".data)]] :=
  (c2_forward_iff_nonempty ⟨2023, 8, 5⟩
      [Elem.h4 "8 George St".data,
       Elem.div [("Application No.".data, "1/2023".data)]] _).mpr
    ⟨by decide, by decide, by decide⟩

/-- A heading followed by two detail blocks; the known label in the second
block is ignored by the code. -/
def c3Page : List Elem :=
  [Elem.h4 "1 Test St".data,
   Elem.div [("Application No.".data, "7/2023".data)],
   Elem.div [("Type of Work".data, "Carport".data)]]

/-- C3 counterexample: a `Type of Work` row in the heading's second detail
block does not contribute — the extracted record's `reason` stays empty,
so not every detail block of a heading is scanned. -/
theorem c3_counterexample_second_block_ignored :
    (extractCandidates ⟨2023, 8, 5⟩ c3Page).map (fun r => r.reason) = [([] : List Char)] ∧
    ([] : List Char) ≠ "Carport".data := by
  refine ⟨?_, ?_⟩ <;> decide

/-- C3 amended: for each heading only the immediate next sibling element is
inspected, and only when it is a `div`: the record is composed from exactly
that block's rows, a second detail block never changes the heading's
record, and a heading whose next sibling is not a `div` is composed from no
rows at all. -/
theorem c3_amended_only_next_sibling_div :
    ∀ (today : CalDate) (t : List Char) (rows rows2 : List (List Char × List Char))
      (rest : List Elem),
      (extractCandidates today (Elem.h4 t :: Elem.div rows :: rest)).head? =
        some (extractRecord today t rows) ∧
      (extractCandidates today (Elem.h4 t :: Elem.div rows :: Elem.div rows2 :: rest)).head? =
        (extractCandidates today (Elem.h4 t :: Elem.div rows :: rest)).head? ∧
      (extractCandidates today (Elem.h4 t :: Elem.other :: rest)).head? =
        some (extractRecord today t []) := by
  intro today t rows rows2 rest
  refine ⟨?_, ?_, ?_⟩ <;> simp [extractCandidates, headerBlocks, nextDivRows]

/-- C4 counterexample: the normalization of line 85 replaces only runs of
two or more whitespace characters, so an address with a single interior
tab keeps the tab — it is not replaced by a space. -/
theorem c4_counterexample_single_tab_kept :
    normalizeWhitespace "12\tSmith St".data = "12\tSmith St".data ∧
    "12\tSmith St".data ≠ "12 Smith St".data := by
  refine ⟨?_, ?_⟩ <;> decide

/-- C4 amended: the address normalization trims leading and trailing
whitespace and collapses each run of two or more whitespace characters to
a single space, but leaves a run consisting of a single whitespace
character (such as one embedded tab or newline) unchanged. -/
theorem c4_amended_collapse_two_or_more :
    ∀ x c y : Char, isWs x = false → isWs y = false → isWs c = true →
      normalizeWhitespace [x, c, y] = [x, c, y] ∧
      (∀ d : Char, isWs d = true → normalizeWhitespace [x, c, d, y] = [x, ' ', y]) ∧
      normalizeWhitespace [c, x] = [x] ∧
      normalizeWhitespace [x, c] = [x] := by
  intro x c y hx hy hc
  refine ⟨?_, fun d hd => ?_, ?_, ?_⟩
  · simp [normalizeWhitespace_eq, jsTrim, List.rdropWhile, List.dropWhile, hx, hy, hc,
      collapseRuns_cons2, collapseRuns_single, collapseRuns_nil]
  · simp [normalizeWhitespace_eq, jsTrim, List.rdropWhile, List.dropWhile, hx, hy, hc, hd,
      collapseRuns_cons2, collapseRuns_single, collapseRuns_nil]
  · simp [normalizeWhitespace_eq, jsTrim, List.rdropWhile, List.dropWhile, hx, hc,
      collapseRuns_cons2, collapseRuns_single, collapseRuns_nil]
  · simp [normalizeWhitespace_eq, jsTrim, List.rdropWhile, List.dropWhile, hx, hc,
      collapseRuns_cons2, collapseRuns_single, collapseRuns_nil]

/-- Witness for C4's amended statement at concrete characters. -/
theorem c4_amended_collapse_witness :
    normalizeWhitespace ['a', '\t', 'b'] = ['a', '\t', 'b'] ∧
    normalizeWhitespace ['a', '\t', '\n', 'b'] = ['a', ' ', 'b'] :=
  ⟨(c4_amended_collapse_two_or_more 'a' '\t' 'b' (by decide) (by decide) (by decide)).1,
   (c4_amended_collapse_two_or_more 'a' '\t' 'b' (by decide) (by decide) (by decide)).2.1
     '\n' (by decide)⟩

/-- C5: the output of the whitespace normalization has no two consecutive
whitespace characters, no leading and no trailing whitespace, and the
normalization is idempotent. -/
theorem c5_normalize_properties :
    ∀ s : List Char,
      noDoubleWs (normalizeWhitespace s) = true ∧
      ((normalizeWhitespace s).head?.all fun c => !isWs c) = true ∧
      ((normalizeWhitespace s).getLast?.all fun c => !isWs c) = true ∧
      normalizeWhitespace (normalizeWhitespace s) = normalizeWhitespace s :=
  fun s => ⟨normalize_noDoubleWs s, normalize_head_all s, normalize_getLast_all s,
    normalize_idem s⟩

/-- C6: the strict `D/MM/YYYY` parse accepts the day with or without a
leading zero — both forms yield 2023-08-05 — and an input matching no date
yields the invalid sentinel (`none`), never an exception. -/
theorem c6_lenient_day_strict_parse :
    parseDMMYYYY "5/08/2023".data = some ⟨2023, 8, 5⟩ ∧
    parseDMMYYYY "05/08/2023".data = some ⟨2023, 8, 5⟩ ∧
    parseDMMYYYY "not a date".data = none := by
  refine ⟨?_, ?_, ?_⟩ <;> decide

/-- C7: field assignment is by case-sensitive exact label matching on the
trimmed key: `Type of Work` sets `reason`, `Application No.` sets
`applicationNumber`, `Date Lodged` sets `receivedDate` via the date parse,
and any other key leaves the state unchanged. -/
theorem c7_exact_label_dispatch :
    ∀ (st : ScanState) (k v : List Char),
      (jsTrim k = "Type of Work".data →
        applyRow st (k, v) = { st with reason := jsTrim v }) ∧
      (jsTrim k = "Application No.".data →
        applyRow st (k, v) = { st with applicationNumber := jsTrim v }) ∧
      (jsTrim k = "Date Lodged".data →
        applyRow st (k, v) = { st with receivedDate := parseDMMYYYY (jsTrim v) }) ∧
      (jsTrim k ≠ "Type of Work".data → jsTrim k ≠ "Application No.".data →
        jsTrim k ≠ "Date Lodged".data → applyRow st (k, v) = st) := by
  intro st k v
  refine ⟨fun h => ?_, fun h => ?_, fun h => ?_, fun h1 h2 h3 => ?_⟩
  · unfold applyRow
    rw [if_pos h]
  · unfold applyRow
    rw [if_neg (fun h1 => absurd (h.symm.trans h1) (by decide)), if_pos h]
  · unfold applyRow
    rw [if_neg (fun h1 => absurd (h.symm.trans h1) (by decide)),
      if_neg (fun h2 => absurd (h.symm.trans h2) (by decide)), if_pos h]
  · unfold applyRow
    rw [if_neg h1, if_neg h2, if_neg h3]

/-- Witness for C7: the exact label assigns the trimmed value, and a key
differing only in letter case is ignored. -/
theorem c7_exact_label_dispatch_witness :
    applyRow initialScanState ("Type of Work".data, " Carport ".data) =
      { initialScanState with reason := "Carport".data } ∧
    applyRow initialScanState ("type of work".data, "Carport".data) = initialScanState := by
  constructor
  · rw [(c7_exact_label_dispatch initialScanState "Type of Work".data
      " Carport ".data).1 (by decide)]
    decide
  · exact (c7_exact_label_dispatch initialScanState "type of work".data "Carport".data).2.2.2
      (by decide) (by decide) (by decide)

/-- C8: one run issues exactly two GETs, the main page first with the
fresh empty jar and then the search URL with the jar as updated by the
main-page response, so every cookie the main-page response set is present
(by name) in the cookies attached to the search request. -/
theorem c8_session_order_and_cookie :
    ∀ (cs : List Cookie) (dateFrom dateTo : List Char),
      sessionRequests cs dateFrom dateTo =
        [{ url := developmentApplicationMainUrl, cookiesSent := [] },
         { url := searchUrlFor dateFrom dateTo, cookiesSent := jarStore [] cs }] ∧
      ∀ c, c ∈ cs → ∃ k, k ∈ jarStore [] cs ∧ k.name = c.name :=
  fun cs _ _ => ⟨rfl, fun c hc => jarStore_mem_name cs [] c hc⟩

/-- Witness for C8: the session cookie set by the main-page response is in
the jar sent with the search request. -/
theorem c8_session_order_and_cookie_witness :
    ∃ k, k ∈ jarStore [] [⟨"JSESSIONID_live".data, "token".data⟩] ∧
      k.name = "JSESSIONID_live".data :=
  (c8_session_order_and_cookie [⟨"JSESSIONID_live".data, "token".data⟩]
      "05/07/2018".data "05/08/2018".data).2
    ⟨"JSESSIONID_live".data, "token".data⟩ (by decide)

/-- The synthetic fixture of C9: one heading, rows `Application No.`,
`Type of Work`, `Date Lodged = 3/1/2023` (single-digit month). -/
def c9Page : List Elem :=
  [Elem.h4 "12  Smith   St".data,
   Elem.div [("Application No.".data, "123/2023".data),
             ("Type of Work".data, "Carport".data),
             ("Date Lodged".data, "3/1/2023".data)]]

/-- C9 counterexample: on the fixture the forwarded record's
`receivedDate` is `"Invalid date"`, not `"2023-01-03"`: the single-digit
month fails the strict `MM` token and the always-truthy `isValid`
reference formats the invalid moment. -/
theorem c9_counterexample_received_date :
    (sinkWrites ⟨2023, 8, 5⟩ c9Page).map (fun r => r.receivedDate) =
      ["Invalid date".data] ∧
    ["Invalid date".data] ≠ ["2023-01-03".data] := by
  refine ⟨?_, ?_⟩ <;> decide

/-- C9 amended: the fixture produces exactly one forwarded record with
application number `123/2023`, address `12 Smith St`, reason `Carport`,
and `receivedDate = "Invalid date"`. -/
theorem c9_amended_fixture_record :
    sinkWrites ⟨2023, 8, 5⟩ c9Page =
      [{ applicationNumber := "123/2023".data,
         address := "12 Smith St".data,
         reason := "Carport".data,
         informationUrl := developmentApplicationMainUrl,
         receivedDate := "Invalid date".data,
         scrapeDate := "2023-08-05".data }] := by
  decide

/-- C10: within one heading's scanned rows, each of the three known labels
resolves to the value of its last matching row in document order — earlier
duplicates are overwritten. -/
theorem c10_last_duplicate_row_wins :
    ∀ (rows : List (List Char × List Char)) (st : ScanState),
      (rows.foldl applyRow st).reason =
        (lastValueFor "Type of Work".data rows).getD st.reason ∧
      (rows.foldl applyRow st).applicationNumber =
        (lastValueFor "Application No.".data rows).getD st.applicationNumber ∧
      (rows.foldl applyRow st).receivedDate =
        ((lastValueFor "Date Lodged".data rows).map parseDMMYYYY).getD st.receivedDate :=
  fun rows st => ⟨foldl_reason rows st, foldl_appNo rows st, foldl_receivedDate rows st⟩

end Scraper
